import Mathlib

/-!
# EduCanvas Live backend: verified model of `src/backend/server.js`

A shallow embedding of the socket event handlers of the classroom server:
the in-memory `appState`, the socket event handlers (`join_room`, `set_admin`,
`peer_ready`, `peer_left`, `peer_joined`, `leave_session`, `chat_message`,
`delete_message`, `draw_data`, `clear_canvas`, `toggle_draw`, `set_user_draw`,
`kick_user`, `stream_status`, `disconnect`), and a small-step trace semantics
over sequences of incoming events.  Each handler returns the successor state
together with the list of messages it emits, tagged with their delivery scope
(`io.to('classroom')`, `socket.to('classroom')`, `socket.emit`, or a targeted
socket).
-/

namespace EduCanvas

/-- Roles stored in `appState.users[..].role`: `'admin'` or `'student'`. -/
inductive Role
  | admin
  | student
deriving DecidableEq, Repr

/-- `'admin'`/`'student'` string of a role, as it appears in JS payloads. -/
def Role.toStr : Role → String
  | .admin => "admin"
  | .student => "student"

/-- One entry of `appState.users`:
`{ name, role, streamActive, canDraw, inVideoCall, peerId }`. -/
structure User where
  name : String
  role : Role
  streamActive : Bool
  canDraw : Bool
  inVideoCall : Bool
  peerId : Option String
deriving DecidableEq, Repr

/-- A chat message as built by the `chat_message` handler. -/
structure ChatMessage where
  id : String
  userId : String
  username : String
  message : String
  timestamp : String
  role : Role
deriving DecidableEq, Repr

/-- The server's in-memory `appState`.  `users` is the JS object
`{ socketId: user }`, modelled as an insertion-ordered association list
(string keys of a JS object enumerate in insertion order; re-assigning an
existing key keeps its position, which `setUser` reproduces). -/
structure AppState where
  admin : Option String
  users : List (String × User)
  chat : List ChatMessage
  drawingEnabled : Bool
  adminCode : String
deriving DecidableEq, Repr

/-- `appState.users[id]`: first binding of `id`, if any. -/
def lookupUser : List (String × User) → String → Option User
  | [], _ => none
  | (j, u) :: rest, i => if j = i then some u else lookupUser rest i

/-- `appState.users[id] = u`: replace the binding in place, or append. -/
def setUser : List (String × User) → String → User → List (String × User)
  | [], i, u => [(i, u)]
  | (j, v) :: rest, i, u =>
    if j = i then (j, u) :: rest else (j, v) :: setUser rest i u

/-- `delete appState.users[id]`. -/
def eraseUser : List (String × User) → String → List (String × User)
  | [], _ => []
  | (j, v) :: rest, i => if j = i then rest else (j, v) :: eraseUser rest i

/-- The initial `appState` literal of `server.js`. -/
def initAppState : AppState :=
  { admin := none
    users := []
    chat := []
    drawingEnabled := true
    adminCode := "teach123" }

/-- Delivery scope of an emitted message:
`io.to('classroom').emit` (`toAll`), `socket.to('classroom').emit`
(`toOthers`, sender excluded), `socket.emit` (`toSelf`) or
`targetSocket.emit` (`toSocket`). -/
inductive Target
  | toAll
  | toOthers (sid : String)
  | toSelf (sid : String)
  | toSocket (sid : String)
deriving DecidableEq, Repr

/-- Whether a message emitted with this scope by `sender` is delivered to the
classroom member `receiver`. -/
def Target.reaches : Target → (sender : String) → (receiver : String) → Bool
  | .toAll, _, _ => true
  | .toOthers s, _, r => r != s
  | .toSelf s, _, r => r == s
  | .toSocket t, _, r => r == t

/-- Entry of the `peers` list sent in `peers_in_room`. -/
structure PeerInfo where
  peerId : String
  userName : String
  userRole : Role
deriving DecidableEq, Repr

/-- The messages the server emits, with their payloads. -/
inductive Msg
  | join_success (role : Role) (users : List (String × User))
      (chat : List ChatMessage) (drawingEnabled : Bool) (isAdmin : Bool)
  | user_joined (userId : String) (user : User)
  | admin_set (isAdmin : Bool)
  | new_admin (userId : String) (user : User)
  | peers_in_room (peers : List PeerInfo)
  | peer_joined (peerId userName userRole : String)
  | peer_left (peerId : String)
  | session_ended (reason : String)
  | user_left (userId : String)
  | new_message (m : ChatMessage)
  | message_deleted (messageId : String)
  | draw_data (payload : String) (userId : String)
  | clear_canvas
  | drawing_toggled (enabled : Bool)
  | user_updated (userId : String) (user : User)
  | kicked (reason : String)
  | user_stream_status (userId : String) (streamActive : Bool)
deriving DecidableEq, Repr

/-- Discriminator for `peer_left` broadcasts. -/
def Msg.isPeerLeft : Msg → Bool
  | .peer_left _ => true
  | _ => false

/-- A scoped emission. -/
abbrev Emit := Target × Msg

/-- The `join_room` handler (server.js:123-162).  Claims admin iff the code
matches `appState.adminCode` and `appState.admin` is unset; registers the
user (overwriting any previous entry for this socket id), replies with a
full snapshot, and notifies the others. -/
def join_room (s : AppState) (sid name code : String) : AppState × List Emit :=
  let claims : Bool := code == s.adminCode && s.admin.isNone
  let role : Role := if claims then .admin else .student
  let adminNew : Option String := if claims then some sid else s.admin
  let u : User :=
    { name := name, role := role, streamActive := false, canDraw := true
      inVideoCall := false, peerId := none }
  let users := setUser s.users sid u
  ({ s with admin := adminNew, users := users },
   [(Target.toSelf sid,
     Msg.join_success role users s.chat s.drawingEnabled (role == Role.admin)),
    (Target.toOthers sid, Msg.user_joined sid u)])

/-- The `set_admin` handler (server.js:165-180).  On a valid unclaimed code it
assigns `appState.admin` and then mutates `appState.users[socket.id].role`;
when that user entry does not exist the JS dereference throws after
`appState.admin` was already assigned, so no emission happens. -/
def set_admin (s : AppState) (sid code : String) : AppState × List Emit :=
  if code == s.adminCode && s.admin.isNone then
    match lookupUser s.users sid with
    | some u =>
      let u' := { u with role := Role.admin }
      ({ s with admin := some sid, users := setUser s.users sid u' },
       [(Target.toSelf sid, Msg.admin_set true),
        (Target.toOthers sid, Msg.new_admin sid u')])
    | none =>
      ({ s with admin := some sid }, [])
  else
    (s, [(Target.toSelf sid, Msg.admin_set false)])

/-- The `peer_ready` handler (server.js:187-221).  Idempotent on the same
handle for the same connection; otherwise records the handle, returns the
filtered peer list to the caller and announces the join to the others. -/
def peer_ready (s : AppState) (sid peerId : String) : AppState × List Emit :=
  match lookupUser s.users sid with
  | none => (s, [])
  | some u =>
    if u.peerId == some peerId then
      (s, [])
    else
      let u' := { u with inVideoCall := true, peerId := some peerId }
      let users' := setUser s.users sid u'
      let peers : List PeerInfo :=
        (users'.filter (fun p =>
            p.1 != sid && p.2.peerId.isSome && p.2.peerId != some peerId)).map
          (fun p =>
            { peerId := p.2.peerId.getD "", userName := p.2.name
              userRole := p.2.role })
      ({ s with users := users' },
       [(Target.toSelf sid, Msg.peers_in_room peers),
        (Target.toOthers sid, Msg.peer_joined peerId u.name u.role.toStr)])

/-- The `peer_left` handler (server.js:224-233). -/
def peer_left (s : AppState) (sid peerId : String) : AppState × List Emit :=
  match lookupUser s.users sid with
  | none => (s, [])
  | some u =>
    if u.peerId == some peerId then
      ({ s with
          users := setUser s.users sid
            { u with inVideoCall := false, peerId := none } },
       [(Target.toOthers sid, Msg.peer_left peerId)])
    else
      (s, [])

/-- The back-compat `peer_joined` handler (server.js:236-245): records the
handle unconditionally and re-broadcasts the client-provided payload. -/
def peer_joined (s : AppState) (sid peerId userName userRole : String) :
    AppState × List Emit :=
  match lookupUser s.users sid with
  | none => (s, [])
  | some u =>
    ({ s with
        users := setUser s.users sid
          { u with inVideoCall := true, peerId := some peerId } },
     [(Target.toOthers sid, Msg.peer_joined peerId userName userRole)])

/-- The `disconnect` handler (server.js:390-415).  Announces `peer_left`
first if a handle was registered, then either resets the whole room (admin)
or removes the single user. -/
def disconnect (s : AppState) (sid : String) : AppState × List Emit :=
  match lookupUser s.users sid with
  | none => (s, [])
  | some u =>
    let peerEmits : List Emit :=
      match u.peerId with
      | some pid => [(Target.toOthers sid, Msg.peer_left pid)]
      | none => []
    if u.role == Role.admin then
      ({ s with admin := none, users := [], chat := [], drawingEnabled := true },
       peerEmits ++ [(Target.toAll, Msg.session_ended "Admin left the session")])
    else
      ({ s with users := eraseUser s.users sid },
       peerEmits ++ [(Target.toOthers sid, Msg.user_left sid)])

/-- The body of the `leave_session` handler before its final
`socket.disconnect()` call (server.js:250-269). -/
def leaveBody (s : AppState) (sid : String) : AppState × List Emit :=
  match lookupUser s.users sid with
  | none => (s, [])
  | some u =>
    if u.role == Role.admin then
      ({ s with admin := none, users := [], chat := [], drawingEnabled := true },
       [(Target.toAll, Msg.session_ended "Admin left the session")])
    else
      ({ s with users := eraseUser s.users sid },
       [(Target.toOthers sid, Msg.user_left sid)])

/-- The `leave_session` handler (server.js:250-272): the leave body followed
by the `disconnect` event its closing `socket.disconnect()` fires. -/
def leave_session (s : AppState) (sid : String) : AppState × List Emit :=
  let r1 := leaveBody s sid
  let r2 := disconnect r1.1 sid
  (r2.1, r1.2 ++ r2.2)

/-- The `chat_message` handler (server.js:275-292).  `now` is the value of
`Date.now()` and `iso` the value of `new Date().toISOString()` at this event;
the message id is `Date.now().toString()`. -/
def chat_message (s : AppState) (sid text : String) (now : Nat) (iso : String) :
    AppState × List Emit :=
  match lookupUser s.users sid with
  | none => (s, [])
  | some u =>
    let m : ChatMessage :=
      { id := Nat.repr now, userId := sid, username := u.name
        message := text, timestamp := iso, role := u.role }
    ({ s with chat := s.chat ++ [m] }, [(Target.toAll, Msg.new_message m)])

/-- The `delete_message` handler (server.js:294-303): admin-only filter of
the chat log. -/
def delete_message (s : AppState) (sid messageId : String) :
    AppState × List Emit :=
  match lookupUser s.users sid with
  | none => (s, [])
  | some u =>
    if u.role == Role.admin then
      ({ s with chat := s.chat.filter (fun m => m.id != messageId) },
       [(Target.toAll, Msg.message_deleted messageId)])
    else
      (s, [])

/-- The `draw_data` handler (server.js:306-316): forwards to the others iff
the sender is admin, or global drawing is enabled and the sender may draw. -/
def draw_data (s : AppState) (sid payload : String) : AppState × List Emit :=
  match lookupUser s.users sid with
  | none => (s, [])
  | some u =>
    if u.role == Role.admin || (s.drawingEnabled && u.canDraw) then
      (s, [(Target.toOthers sid, Msg.draw_data payload sid)])
    else
      (s, [])

/-- The `clear_canvas` handler (server.js:318-325): admin-only broadcast. -/
def clear_canvas (s : AppState) (sid : String) : AppState × List Emit :=
  match lookupUser s.users sid with
  | none => (s, [])
  | some u =>
    if u.role == Role.admin then
      (s, [(Target.toAll, Msg.clear_canvas)])
    else
      (s, [])

/-- The `toggle_draw` handler (server.js:327-336): admin-only global flag. -/
def toggle_draw (s : AppState) (sid : String) (enabled : Bool) :
    AppState × List Emit :=
  match lookupUser s.users sid with
  | none => (s, [])
  | some u =>
    if u.role == Role.admin then
      ({ s with drawingEnabled := enabled },
       [(Target.toAll, Msg.drawing_toggled enabled)])
    else
      (s, [])

/-- The `set_user_draw` handler (server.js:339-347): admin-only per-user
permission; silently does nothing when the target entry is absent. -/
def set_user_draw (s : AppState) (sid targetUserId : String) (canDraw : Bool) :
    AppState × List Emit :=
  match lookupUser s.users sid with
  | none => (s, [])
  | some u =>
    if u.role == Role.admin then
      match lookupUser s.users targetUserId with
      | some t =>
        let t' := { t with canDraw := canDraw }
        ({ s with users := setUser s.users targetUserId t' },
         [(Target.toAll, Msg.user_updated targetUserId t')])
      | none => (s, [])
    else
      (s, [])

/-- The `kick_user` handler (server.js:350-373).  `socketLive` says whether
`io.sockets.sockets.get(targetUserId)` found a live socket; in that case the
handler only emits `kicked` now and the forced disconnect runs later from a
`setTimeout` (a separate `disconnect` trace event).  Otherwise it falls back
to direct registry cleanup plus `user_left`, when an entry exists. -/
def kick_user (s : AppState) (sid targetUserId : String) (socketLive : Bool) :
    AppState × List Emit :=
  match lookupUser s.users sid with
  | none => (s, [])
  | some u =>
    if u.role == Role.admin then
      if socketLive then
        (s, [(Target.toSocket targetUserId, Msg.kicked "Removed by admin")])
      else
        match lookupUser s.users targetUserId with
        | some _ =>
          ({ s with users := eraseUser s.users targetUserId },
           [(Target.toAll, Msg.user_left targetUserId)])
        | none => (s, [])
    else
      (s, [])

/-- The `stream_status` handler (server.js:376-387). -/
def stream_status (s : AppState) (sid : String) (streamActive : Bool) :
    AppState × List Emit :=
  match lookupUser s.users sid with
  | none => (s, [])
  | some u =>
    ({ s with users := setUser s.users sid { u with streamActive := streamActive } },
     [(Target.toOthers sid, Msg.user_stream_status sid streamActive)])

/-- One incoming trace event: a client message (with the environment inputs
the handler reads) or a transport-level disconnect. -/
inductive Event
  | join_room (sid name code : String)
  | set_admin (sid code : String)
  | peer_ready (sid peerId : String)
  | peer_left (sid peerId : String)
  | peer_joined (sid peerId userName userRole : String)
  | leave_session (sid : String)
  | chat_message (sid text : String) (now : Nat) (iso : String)
  | delete_message (sid messageId : String)
  | draw_data (sid payload : String)
  | clear_canvas (sid : String)
  | toggle_draw (sid : String) (enabled : Bool)
  | set_user_draw (sid targetUserId : String) (canDraw : Bool)
  | kick_user (sid targetUserId : String) (socketLive : Bool)
  | stream_status (sid : String) (streamActive : Bool)
  | disconnect (sid : String)
deriving DecidableEq, Repr

/-- Dispatch one event to its handler. -/
def step (s : AppState) : Event → AppState × List Emit
  | .join_room sid name code => join_room s sid name code
  | .set_admin sid code => set_admin s sid code
  | .peer_ready sid pid => peer_ready s sid pid
  | .peer_left sid pid => peer_left s sid pid
  | .peer_joined sid pid un ur => peer_joined s sid pid un ur
  | .leave_session sid => leave_session s sid
  | .chat_message sid text now iso => chat_message s sid text now iso
  | .delete_message sid mid => delete_message s sid mid
  | .draw_data sid payload => draw_data s sid payload
  | .clear_canvas sid => clear_canvas s sid
  | .toggle_draw sid enabled => toggle_draw s sid enabled
  | .set_user_draw sid target canDraw => set_user_draw s sid target canDraw
  | .kick_user sid target live => kick_user s sid target live
  | .stream_status sid active => stream_status s sid active
  | .disconnect sid => disconnect s sid

/-- Run a trace of events from a state. -/
def run (s : AppState) : List Event → AppState
  | [] => s
  | e :: es => run (step s e).1 es

/-! ## Observers and invariant predicates -/

/-- At most one registry entry holds the admin role. -/
def AdminUnique (s : AppState) : Prop :=
  ∀ p ∈ s.users, ∀ q ∈ s.users,
    p.2.role = Role.admin → q.2.role = Role.admin → p.1 = q.1

/-- Inductive invariant: every admin-role entry is the one recorded in
`appState.admin`. -/
def AdminInv (s : AppState) : Prop :=
  ∀ p ∈ s.users, p.2.role = Role.admin → s.admin = some p.1

/-- No two distinct registry entries hold the same registered peer handle. -/
def PeerUnique (s : AppState) : Prop :=
  ∀ p ∈ s.users, ∀ q ∈ s.users,
    p.2.peerId.isSome = true → p.2.peerId = q.2.peerId → p.1 = q.1

/-- Some registry entry currently holds handle `h`. -/
def RegisteredHandle (s : AppState) (h : String) : Prop :=
  ∃ p ∈ s.users, p.2.peerId = some h

/-- The socket ids of the registry have no duplicates (JS object keys). -/
def KeysNodup (s : AppState) : Prop :=
  (s.users.map Prod.fst).Nodup

/-- One step preserves peer-handle uniqueness and registers no handle beyond
`fresh` and the previously registered ones. -/
def PeerStepOk (s s' : AppState) (fresh : List String) : Prop :=
  PeerUnique s' ∧ ∀ h, RegisteredHandle s' h → h ∈ fresh ∨ RegisteredHandle s h

/-- The `Date.now()` values of the `chat_message` events of a trace. -/
def chatStamps : List Event → List Nat
  | [] => []
  | Event.chat_message _ _ now _ :: es => now :: chatStamps es
  | _ :: es => chatStamps es

/-- The peer handles presented by `peer_ready`/`peer_joined` events of a
trace. -/
def presentedHandles : List Event → List String
  | [] => []
  | Event.peer_ready _ pid :: es => pid :: presentedHandles es
  | Event.peer_joined _ pid _ _ :: es => pid :: presentedHandles es
  | _ :: es => presentedHandles es

/-! ## Decimal digits: a decoder for `Nat.repr`

`chat_message` ids are `Date.now().toString()`; to reason about their
distinctness we show `Nat.repr` injective via an explicit decoder. -/

/-- The base-10 digit characters of `n`, most significant first, as
`Nat.toDigits 10` produces them. -/
def digitsBase10 (n : Nat) : List Char :=
  if n < 10 then [Nat.digitChar n]
  else digitsBase10 (n / 10) ++ [Nat.digitChar (n % 10)]
decreasing_by exact Nat.div_lt_self (by omega) (by omega)

/-- Numeric value of a decimal digit character. -/
def decDigit (c : Char) : Nat :=
  c.toNat - 48

/-- Decode a most-significant-first decimal digit list. -/
def decList (l : List Char) : Nat :=
  l.foldl (fun a c => 10 * a + decDigit c) 0

/-! ## Concrete fixtures for witnesses and counterexamples -/

/-- An admin user entry. -/
def annAdmin : User :=
  { name := "Ann", role := Role.admin, streamActive := false, canDraw := true
    inVideoCall := false, peerId := none }

/-- A student user entry with default flags. -/
def boStudent : User :=
  { name := "Bo", role := Role.student, streamActive := false, canDraw := true
    inVideoCall := false, peerId := none }

/-- A student who registered peer handle `"h"`. -/
def boPeer : User :=
  { boStudent with inVideoCall := true, peerId := some "h" }

/-- A student whose draw permission was revoked. -/
def boNoDraw : User :=
  { boStudent with canDraw := false }

/-- A room whose owner `"A"` is the only member. -/
def roomWithOwner : AppState :=
  { admin := some "A", users := [("A", annAdmin)], chat := []
    drawingEnabled := true, adminCode := "teach123" }

/-- A room with owner `"A"` and student `"B"` holding peer handle `"h"`. -/
def roomOwnerPeer : AppState :=
  { roomWithOwner with users := [("A", annAdmin), ("B", boPeer)] }

/-- A room with owner `"A"` and a student `"B"` with `canDraw = false`. -/
def roomOwnerNoDraw : AppState :=
  { roomWithOwner with users := [("A", annAdmin), ("B", boNoDraw)] }

/-! ## Association-list lemmas -/

theorem lookupUser_mem {us : List (String × User)} {i : String} {u : User}
    (h : lookupUser us i = some u) : (i, u) ∈ us := by
  induction us with
  | nil => simp [lookupUser] at h
  | cons p rest ih =>
    obtain ⟨j, v⟩ := p
    by_cases hj : j = i
    · subst hj
      simp [lookupUser] at h
      subst h
      exact List.mem_cons_self _ _
    · simp [lookupUser, hj] at h
      exact List.mem_cons_of_mem _ (ih h)

theorem mem_setUser {us : List (String × User)} {i : String} {u : User}
    {p : String × User} (h : p ∈ setUser us i u) : p = (i, u) ∨ p ∈ us := by
  induction us with
  | nil =>
    simp [setUser] at h
    exact Or.inl h
  | cons q rest ih =>
    obtain ⟨j, v⟩ := q
    by_cases hj : j = i
    · subst hj
      simp [setUser] at h
      rcases h with h | h
      · exact Or.inl h
      · exact Or.inr (List.mem_cons_of_mem _ h)
    · simp [setUser, hj] at h
      rcases h with h | h
      · exact Or.inr (by simp [h])
      · rcases ih h with h' | h'
        · exact Or.inl h'
        · exact Or.inr (List.mem_cons_of_mem _ h')

theorem mem_eraseUser {us : List (String × User)} {i : String}
    {p : String × User} (h : p ∈ eraseUser us i) : p ∈ us := by
  induction us with
  | nil => simp [eraseUser] at h
  | cons q rest ih =>
    obtain ⟨j, v⟩ := q
    by_cases hj : j = i
    · subst hj
      simp [eraseUser] at h
      exact List.mem_cons_of_mem _ h
    · simp [eraseUser, hj] at h
      rcases h with h | h
      · simp [h]
      · exact List.mem_cons_of_mem _ (ih h)

theorem lookupUser_setUser_self (us : List (String × User)) (i : String)
    (u : User) : lookupUser (setUser us i u) i = some u := by
  induction us with
  | nil => simp [setUser, lookupUser]
  | cons q rest ih =>
    obtain ⟨j, v⟩ := q
    by_cases hj : j = i
    · subst hj
      simp [setUser, lookupUser]
    · simp [setUser, lookupUser, hj, ih]

theorem lookupUser_eq_none {us : List (String × User)} {i : String}
    (h : ∀ p ∈ us, p.1 ≠ i) : lookupUser us i = none := by
  induction us with
  | nil => rfl
  | cons q rest ih =>
    obtain ⟨j, v⟩ := q
    have hj : j ≠ i := h (j, v) (List.mem_cons_self _ _)
    simp only [lookupUser, if_neg hj]
    exact ih (fun p hp => h p (List.mem_cons_of_mem _ hp))

theorem mem_keys_eraseUser {us : List (String × User)} {i k : String}
    (h : k ∈ (eraseUser us i).map Prod.fst) : k ∈ us.map Prod.fst := by
  simp only [List.mem_map] at h ⊢
  obtain ⟨p, hp, hk⟩ := h
  exact ⟨p, mem_eraseUser hp, hk⟩

theorem lookupUser_eraseUser_self {us : List (String × User)} {i : String}
    (h : (us.map Prod.fst).Nodup) : lookupUser (eraseUser us i) i = none := by
  induction us with
  | nil => rfl
  | cons q rest ih =>
    obtain ⟨j, v⟩ := q
    simp only [List.map_cons, List.nodup_cons] at h
    by_cases hj : j = i
    · subst hj
      simp only [eraseUser, if_pos rfl]
      apply lookupUser_eq_none
      intro p hp hpj
      exact h.1 (by simpa [hpj] using List.mem_map_of_mem Prod.fst hp)
    · simp only [eraseUser, if_neg hj, lookupUser, if_neg hj]
      exact ih h.2

/-! ## Injectivity of `Nat.repr` -/

theorem toDigitsCore_eq_digitsBase10 (f n : Nat) (l : List Char) (h : n < f) :
    Nat.toDigitsCore 10 f n l = digitsBase10 n ++ l := by
  induction f generalizing n l with
  | zero => omega
  | succ f ih =>
    simp only [Nat.toDigitsCore]
    by_cases h10 : n / 10 = 0
    · have hn : n < 10 := by omega
      rw [if_pos h10, digitsBase10, if_pos hn, Nat.mod_eq_of_lt hn]
      rfl
    · have hn : ¬ n < 10 := by omega
      have hrec : digitsBase10 n = digitsBase10 (n / 10) ++ [Nat.digitChar (n % 10)] := by
        rw [digitsBase10, if_neg hn]
      rw [if_neg h10, ih (n / 10) _ (by omega), hrec]
      simp

theorem decDigit_digitChar {d : Nat} (h : d < 10) :
    decDigit (Nat.digitChar d) = d := by
  interval_cases d <;> rfl

theorem decList_digitsBase10 (n : Nat) : decList (digitsBase10 n) = n := by
  induction n using Nat.strong_induction_on with
  | _ n ih =>
    by_cases h : n < 10
    · rw [digitsBase10, if_pos h]
      simp [decList, List.foldl, decDigit_digitChar h]
    · rw [digitsBase10, if_neg h]
      unfold decList
      rw [List.foldl_append]
      have h1 : (digitsBase10 (n / 10)).foldl (fun a c => 10 * a + decDigit c) 0
          = n / 10 := ih (n / 10) (Nat.div_lt_self (by omega) (by omega))
      rw [h1]
      simp [List.foldl, decDigit_digitChar (Nat.mod_lt n (by omega))]
      omega

theorem digitsBase10_injective : Function.Injective digitsBase10 := by
  intro m n h
  have h' := congrArg decList h
  rwa [decList_digitsBase10, decList_digitsBase10] at h'

theorem natRepr_injective : Function.Injective Nat.repr := by
  intro m n h
  have hd : Nat.toDigits 10 m = Nat.toDigits 10 n := congrArg String.data h
  have em : Nat.toDigits 10 m = digitsBase10 m := by
    unfold Nat.toDigits
    rw [toDigitsCore_eq_digitsBase10 _ _ _ (Nat.lt_succ_self m)]
    simp
  have en : Nat.toDigits 10 n = digitsBase10 n := by
    unfold Nat.toDigits
    rw [toDigitsCore_eq_digitsBase10 _ _ _ (Nat.lt_succ_self n)]
    simp
  rw [em, en] at hd
  exact digitsBase10_injective hd

/-! ## Peer-handle registration lemmas (C8) -/

theorem peerUnique_users_eq {s s' : AppState} (hu : s'.users = s.users)
    (h : PeerUnique s) : PeerUnique s' := by
  intro p hp q hq
  rw [hu] at hp hq
  exact h p hp q hq

theorem registered_users_eq {s s' : AppState} {h : String}
    (hu : s'.users = s.users) (hr : RegisteredHandle s' h) :
    RegisteredHandle s h := by
  obtain ⟨p, hp, hph⟩ := hr
  rw [hu] at hp
  exact ⟨p, hp, hph⟩

theorem peerUnique_erase {s : AppState} (h : PeerUnique s) (i : String) :
    PeerUnique { s with users := eraseUser s.users i } := by
  intro p hp q hq
  exact h p (mem_eraseUser hp) q (mem_eraseUser hq)

theorem registered_erase {s : AppState} {i : String} {h : String}
    (hr : RegisteredHandle { s with users := eraseUser s.users i } h) :
    RegisteredHandle s h := by
  obtain ⟨p, hp, hph⟩ := hr
  exact ⟨p, mem_eraseUser hp, hph⟩

theorem registered_set_sub {s : AppState} {sid : String} {u' : User}
    {h : String}
    (hr : RegisteredHandle { s with users := setUser s.users sid u' } h) :
    u'.peerId = some h ∨ RegisteredHandle s h := by
  obtain ⟨p, hp, hph⟩ := hr
  rcases mem_setUser hp with h' | h'
  · subst h'
    exact Or.inl hph
  · exact Or.inr ⟨p, h', hph⟩

theorem peerUnique_set_none {s : AppState} {sid : String} {u' : User}
    (h : PeerUnique s) (hp : u'.peerId = none) :
    PeerUnique { s with users := setUser s.users sid u' } := by
  intro p hpm q hqm hps hpe
  rcases mem_setUser hpm with h1 | h1 <;> rcases mem_setUser hqm with h2 | h2
  · rw [h1, h2]
  · rw [h1] at hps
    simp [hp] at hps
  · rw [h2, hp] at hpe
    rw [hpe] at hps
    simp at hps
  · exact h p h1 q h2 hps hpe

theorem peerUnique_set_fresh {s : AppState} {sid pid : String} {u' : User}
    (h : PeerUnique s) (hfresh : ¬ RegisteredHandle s pid)
    (hp : u'.peerId = some pid) :
    PeerUnique { s with users := setUser s.users sid u' } := by
  intro p hpm q hqm hps hpe
  rcases mem_setUser hpm with h1 | h1 <;> rcases mem_setUser hqm with h2 | h2
  · rw [h1, h2]
  · rw [h1] at hpe
    rw [hp] at hpe
    exact absurd ⟨q, h2, hpe.symm⟩ hfresh
  · rw [h2] at hpe
    rw [hp] at hpe
    have : p.2.peerId = some pid := hpe
    exact absurd ⟨p, h1, this⟩ hfresh
  · exact h p h1 q h2 hps hpe

theorem peerUnique_set_preserve {s : AppState} {sid : String} {u u' : User}
    (h : PeerUnique s) (hl : lookupUser s.users sid = some u)
    (hp : u'.peerId = u.peerId) :
    PeerUnique { s with users := setUser s.users sid u' } := by
  have hmem : (sid, u) ∈ s.users := lookupUser_mem hl
  intro p hpm q hqm hps hpe
  rcases mem_setUser hpm with h1 | h1 <;> rcases mem_setUser hqm with h2 | h2
  · rw [h1, h2]
  · rw [h1] at hps hpe ⊢
    rw [hp] at hps hpe
    exact h (sid, u) hmem q h2 hps hpe
  · rw [h2] at hpe ⊢
    rw [hp] at hpe
    exact h p h1 (sid, u) hmem hps hpe
  · exact h p h1 q h2 hps hpe

theorem registered_set_preserve {s : AppState} {sid : String} {u u' : User}
    {h : String} (hl : lookupUser s.users sid = some u)
    (hp : u'.peerId = u.peerId)
    (hr : RegisteredHandle { s with users := setUser s.users sid u' } h) :
    RegisteredHandle s h := by
  rcases registered_set_sub hr with h' | h'
  · rw [hp] at h'
    exact ⟨(sid, u), lookupUser_mem hl, h'⟩
  · exact h'

theorem peerStepOk_of_users_eq {s s' : AppState} (hU : PeerUnique s)
    (hu : s'.users = s.users) (fresh : List String) : PeerStepOk s s' fresh :=
  ⟨peerUnique_users_eq hu hU,
   fun _ hr => Or.inr (registered_users_eq hu hr)⟩

theorem peerStepOk_of_erase {s : AppState} (hU : PeerUnique s) {s' : AppState}
    (i : String) (hu : s'.users = eraseUser s.users i) (fresh : List String) :
    PeerStepOk s s' fresh := by
  constructor
  · exact peerUnique_users_eq hu (peerUnique_erase hU i)
  · intro h hr
    exact Or.inr (registered_erase (registered_users_eq hu hr))

theorem peerStepOk_of_set_preserve {s s' : AppState} {sid : String}
    {u u' : User} (hU : PeerUnique s) (hl : lookupUser s.users sid = some u)
    (hp : u'.peerId = u.peerId) (hu : s'.users = setUser s.users sid u')
    (fresh : List String) : PeerStepOk s s' fresh := by
  constructor
  · exact peerUnique_users_eq hu (peerUnique_set_preserve hU hl hp)
  · intro h hr
    exact Or.inr (registered_set_preserve hl hp (registered_users_eq hu hr))

theorem peerStepOk_of_set_none {s s' : AppState} {sid : String} {u' : User}
    (hU : PeerUnique s) (hp : u'.peerId = none)
    (hu : s'.users = setUser s.users sid u') (fresh : List String) :
    PeerStepOk s s' fresh := by
  constructor
  · exact peerUnique_users_eq hu (peerUnique_set_none hU hp)
  · intro h hr
    rcases registered_set_sub (registered_users_eq hu hr) with h' | h'
    · rw [hp] at h'
      exact absurd h' (by simp)
    · exact Or.inr h'

theorem peerStepOk_of_set_fresh {s s' : AppState} {sid pid : String}
    {u' : User} (hU : PeerUnique s) (hfresh : ¬ RegisteredHandle s pid)
    (hp : u'.peerId = some pid) (hu : s'.users = setUser s.users sid u') :
    PeerStepOk s s' [pid] := by
  constructor
  · exact peerUnique_users_eq hu (peerUnique_set_fresh hU hfresh hp)
  · intro h hr
    rcases registered_set_sub (registered_users_eq hu hr) with h' | h'
    · rw [hp] at h'
      exact Or.inl (by simpa using (Option.some_injective _ h').symm)
    · exact Or.inr h'

theorem peerStepOk_step (s : AppState) (e : Event) (hU : PeerUnique s)
    (hfresh : ∀ pid ∈ presentedHandles [e], ¬ RegisteredHandle s pid) :
    PeerStepOk s (step s e).1 (presentedHandles [e]) := by
  cases e with
  | join_room sid name code =>
    exact peerStepOk_of_set_none hU rfl rfl _
  | set_admin sid code =>
    simp only [step]
    unfold set_admin
    by_cases hc : (code == s.adminCode && s.admin.isNone) = true
    · simp only [hc, if_true]
      cases hl : lookupUser s.users sid with
      | none => exact peerStepOk_of_users_eq hU rfl _
      | some u =>
        exact peerStepOk_of_set_preserve hU hl
          (show ({ u with role := Role.admin } : User).peerId = u.peerId from rfl)
          rfl _
    · simp only [hc, if_false]
      exact peerStepOk_of_users_eq hU rfl _
  | peer_ready sid pid =>
    simp only [step]
    unfold peer_ready
    cases hl : lookupUser s.users sid with
    | none => exact peerStepOk_of_users_eq hU rfl _
    | some u =>
      by_cases hp : (u.peerId == some pid) = true
      · simp only [hp, if_true]
        exact peerStepOk_of_users_eq hU rfl _
      · simp only [hp, if_false]
        have hf : ¬ RegisteredHandle s pid :=
          hfresh pid (by simp [presentedHandles])
        exact peerStepOk_of_set_fresh hU hf
          (show ({ u with inVideoCall := true, peerId := some pid } : User).peerId
            = some pid from rfl) rfl
  | peer_left sid pid =>
    simp only [step]
    unfold peer_left
    cases hl : lookupUser s.users sid with
    | none => exact peerStepOk_of_users_eq hU rfl _
    | some u =>
      by_cases hp : (u.peerId == some pid) = true
      · simp only [hp, if_true]
        exact peerStepOk_of_set_none hU rfl rfl _
      · simp only [hp, if_false]
        exact peerStepOk_of_users_eq hU rfl _
  | peer_joined sid pid un ur =>
    simp only [step]
    unfold peer_joined
    cases hl : lookupUser s.users sid with
    | none => exact peerStepOk_of_users_eq hU rfl _
    | some u =>
      have hf : ¬ RegisteredHandle s pid :=
        hfresh pid (by simp [presentedHandles])
      exact peerStepOk_of_set_fresh hU hf
        (show ({ u with inVideoCall := true, peerId := some pid } : User).peerId
          = some pid from rfl) rfl
  | leave_session sid =>
    simp only [step]
    unfold leave_session
    have hbody : PeerStepOk s (leaveBody s sid).1 [] := by
      unfold leaveBody
      cases hl : lookupUser s.users sid with
      | none => exact peerStepOk_of_users_eq hU rfl _
      | some u =>
        by_cases hr : (u.role == Role.admin) = true
        · simp only [hr, if_true]
          refine ⟨?_, ?_⟩
          · intro p hp
            simp at hp
          · intro h hr'
            obtain ⟨p, hp, _⟩ := hr'
            simp at hp
        · simp only [hr, if_false]
          exact peerStepOk_of_erase hU sid rfl _
    have hdis : PeerStepOk (leaveBody s sid).1 (disconnect (leaveBody s sid).1 sid).1 [] := by
      have hU1 := hbody.1
      unfold disconnect
      cases hl : lookupUser (leaveBody s sid).1.users sid with
      | none => exact peerStepOk_of_users_eq hU1 rfl _
      | some u =>
        by_cases hr : (u.role == Role.admin) = true
        · simp only [hr, if_true]
          refine ⟨?_, ?_⟩
          · intro p hp
            simp at hp
          · intro h hr'
            obtain ⟨p, hp, _⟩ := hr'
            simp at hp
        · simp only [hr, if_false]
          exact peerStepOk_of_erase hU1 sid rfl _
    refine ⟨hdis.1, ?_⟩
    intro h hr
    rcases hdis.2 h hr with h' | h'
    · simp at h'
    · rcases hbody.2 h h' with h'' | h''
      · simp at h''
      · exact Or.inr h''
  | chat_message sid text now iso =>
    simp only [step]
    unfold chat_message
    cases hl : lookupUser s.users sid with
    | none => exact peerStepOk_of_users_eq hU rfl _
    | some u => exact peerStepOk_of_users_eq hU rfl _
  | delete_message sid mid =>
    simp only [step]
    unfold delete_message
    cases hl : lookupUser s.users sid with
    | none => exact peerStepOk_of_users_eq hU rfl _
    | some u =>
      by_cases hr : (u.role == Role.admin) = true
      · simp only [hr, if_true]
        exact peerStepOk_of_users_eq hU rfl _
      · simp only [hr, if_false]
        exact peerStepOk_of_users_eq hU rfl _
  | draw_data sid payload =>
    simp only [step]
    unfold draw_data
    cases hl : lookupUser s.users sid with
    | none => exact peerStepOk_of_users_eq hU rfl _
    | some u =>
      by_cases hr : (u.role == Role.admin || (s.drawingEnabled && u.canDraw)) = true
      · simp only [hr, if_true]
        exact peerStepOk_of_users_eq hU rfl _
      · simp only [hr, if_false]
        exact peerStepOk_of_users_eq hU rfl _
  | clear_canvas sid =>
    simp only [step]
    unfold clear_canvas
    cases hl : lookupUser s.users sid with
    | none => exact peerStepOk_of_users_eq hU rfl _
    | some u =>
      by_cases hr : (u.role == Role.admin) = true
      · simp only [hr, if_true]
        exact peerStepOk_of_users_eq hU rfl _
      · simp only [hr, if_false]
        exact peerStepOk_of_users_eq hU rfl _
  | toggle_draw sid enabled =>
    simp only [step]
    unfold toggle_draw
    cases hl : lookupUser s.users sid with
    | none => exact peerStepOk_of_users_eq hU rfl _
    | some u =>
      by_cases hr : (u.role == Role.admin) = true
      · simp only [hr, if_true]
        exact peerStepOk_of_users_eq hU rfl _
      · simp only [hr, if_false]
        exact peerStepOk_of_users_eq hU rfl _
  | set_user_draw sid target canDraw =>
    simp only [step]
    unfold set_user_draw
    cases hl : lookupUser s.users sid with
    | none => exact peerStepOk_of_users_eq hU rfl _
    | some u =>
      by_cases hr : (u.role == Role.admin) = true
      · simp only [hr, if_true]
        cases ht : lookupUser s.users target with
        | none => exact peerStepOk_of_users_eq hU rfl _
        | some t =>
          exact peerStepOk_of_set_preserve hU ht
            (show ({ t with canDraw := canDraw } : User).peerId = t.peerId from rfl)
            rfl _
      · simp only [hr, if_false]
        exact peerStepOk_of_users_eq hU rfl _
  | kick_user sid target live =>
    simp only [step]
    unfold kick_user
    cases hl : lookupUser s.users sid with
    | none => exact peerStepOk_of_users_eq hU rfl _
    | some u =>
      by_cases hr : (u.role == Role.admin) = true
      · simp only [hr, if_true]
        cases live with
        | true => exact peerStepOk_of_users_eq hU rfl _
        | false =>
          simp only [Bool.false_eq_true, if_false]
          cases ht : lookupUser s.users target with
          | none => exact peerStepOk_of_users_eq hU rfl _
          | some t => exact peerStepOk_of_erase hU target rfl _
      · simp only [hr, if_false]
        exact peerStepOk_of_users_eq hU rfl _
  | stream_status sid active =>
    simp only [step]
    unfold stream_status
    cases hl : lookupUser s.users sid with
    | none => exact peerStepOk_of_users_eq hU rfl _
    | some u =>
      exact peerStepOk_of_set_preserve hU hl
        (show ({ u with streamActive := active } : User).peerId = u.peerId from rfl)
        rfl _
  | disconnect sid =>
    simp only [step]
    unfold disconnect
    cases hl : lookupUser s.users sid with
    | none => exact peerStepOk_of_users_eq hU rfl _
    | some u =>
      by_cases hr : (u.role == Role.admin) = true
      · simp only [hr, if_true]
        refine ⟨?_, ?_⟩
        · intro p hp
          simp at hp
        · intro h hr'
          obtain ⟨p, hp, _⟩ := hr'
          simp at hp
      · simp only [hr, if_false]
        exact peerStepOk_of_erase hU sid rfl _

theorem presentedHandles_cons (e : Event) (es : List Event) :
    presentedHandles (e :: es) = presentedHandles [e] ++ presentedHandles es := by
  cases e <;> rfl

theorem peerUnique_run (es : List Event) (s : AppState) (hU : PeerUnique s)
    (hN : (presentedHandles es).Nodup)
    (hD : ∀ h, RegisteredHandle s h → h ∉ presentedHandles es) :
    PeerUnique (run s es) := by
  induction es generalizing s with
  | nil => exact hU
  | cons e es ih =>
    rw [presentedHandles_cons] at hN hD
    have hfresh : ∀ pid ∈ presentedHandles [e], ¬ RegisteredHandle s pid := by
      intro pid hpid hreg
      exact hD pid hreg (List.mem_append_left _ hpid)
    obtain ⟨hU', hsub⟩ := peerStepOk_step s e hU hfresh
    refine ih (step s e).1 hU' ((List.nodup_append.mp hN).2.1 : _) ?_
    intro h hreg hmem
    rcases hsub h hreg with h' | h'
    · exact (List.nodup_append.mp hN).2.2 h' hmem
    · exact hD h h' (List.mem_append_right _ hmem)

/-! ## Chat-log shape lemmas (C5) -/

theorem chat_shape_step (s : AppState) (e : Event) :
    (step s e).1.chat = s.chat ∨
    (step s e).1.chat = [] ∨
    (∃ mid, (step s e).1.chat = s.chat.filter (fun m => m.id != mid)) ∨
    (∃ now, now ∈ chatStamps [e] ∧
      ∃ m : ChatMessage, m.id = Nat.repr now ∧
        (step s e).1.chat = s.chat ++ [m]) := by
  cases e with
  | join_room sid name code => exact Or.inl rfl
  | set_admin sid code =>
    simp only [step]
    unfold set_admin
    by_cases hc : (code == s.adminCode && s.admin.isNone) = true
    · simp only [hc, if_true]
      cases hl : lookupUser s.users sid with
      | none => exact Or.inl rfl
      | some u => exact Or.inl rfl
    · simp only [hc, if_false]
      exact Or.inl (by first | rfl | trivial)
  | peer_ready sid pid =>
    simp only [step]
    unfold peer_ready
    cases hl : lookupUser s.users sid with
    | none => exact Or.inl rfl
    | some u =>
      by_cases hp : (u.peerId == some pid) = true
      · simp only [hp, if_true]
        exact Or.inl (by first | rfl | trivial)
      · simp only [hp, if_false]
        exact Or.inl (by first | rfl | trivial)
  | peer_left sid pid =>
    simp only [step]
    unfold peer_left
    cases hl : lookupUser s.users sid with
    | none => exact Or.inl rfl
    | some u =>
      by_cases hp : (u.peerId == some pid) = true
      · simp only [hp, if_true]
        exact Or.inl (by first | rfl | trivial)
      · simp only [hp, if_false]
        exact Or.inl (by first | rfl | trivial)
  | peer_joined sid pid un ur =>
    simp only [step]
    unfold peer_joined
    cases hl : lookupUser s.users sid with
    | none => exact Or.inl rfl
    | some u => exact Or.inl rfl
  | leave_session sid =>
    have hb : (leaveBody s sid).1.chat = s.chat ∨ (leaveBody s sid).1.chat = [] := by
      unfold leaveBody
      cases hl : lookupUser s.users sid with
      | none => exact Or.inl rfl
      | some u =>
        by_cases hr : (u.role == Role.admin) = true
        · simp only [hr, if_true]
          exact Or.inr (by first | rfl | trivial)
        · simp only [hr, if_false]
          exact Or.inl (by first | rfl | trivial)
    have hd : (disconnect (leaveBody s sid).1 sid).1.chat = (leaveBody s sid).1.chat ∨
        (disconnect (leaveBody s sid).1 sid).1.chat = [] := by
      unfold disconnect
      cases hl : lookupUser (leaveBody s sid).1.users sid with
      | none => exact Or.inl rfl
      | some u =>
        by_cases hr : (u.role == Role.admin) = true
        · simp only [hr, if_true]
          exact Or.inr (by first | rfl | trivial)
        · simp only [hr, if_false]
          exact Or.inl (by first | rfl | trivial)
    rcases hd with hd | hd
    · rcases hb with hb | hb
      · exact Or.inl (hd.trans hb)
      · exact Or.inr (Or.inl (hd.trans hb))
    · exact Or.inr (Or.inl hd)
  | chat_message sid text now iso =>
    simp only [step]
    unfold chat_message
    cases hl : lookupUser s.users sid with
    | none => exact Or.inl rfl
    | some u =>
      exact Or.inr (Or.inr (Or.inr ⟨now, by simp [chatStamps],
        { id := Nat.repr now, userId := sid, username := u.name,
          message := text, timestamp := iso, role := u.role }, rfl, rfl⟩))
  | delete_message sid mid =>
    simp only [step]
    unfold delete_message
    cases hl : lookupUser s.users sid with
    | none => exact Or.inl rfl
    | some u =>
      by_cases hr : (u.role == Role.admin) = true
      · simp only [hr, if_true]
        exact Or.inr (Or.inr (Or.inl ⟨mid, by first | rfl | trivial⟩))
      · simp only [hr, if_false]
        exact Or.inl (by first | rfl | trivial)
  | draw_data sid payload =>
    simp only [step]
    unfold draw_data
    cases hl : lookupUser s.users sid with
    | none => exact Or.inl rfl
    | some u =>
      by_cases hr : (u.role == Role.admin || (s.drawingEnabled && u.canDraw)) = true
      · simp only [hr, if_true]
        exact Or.inl (by first | rfl | trivial)
      · simp only [hr, if_false]
        exact Or.inl (by first | rfl | trivial)
  | clear_canvas sid =>
    simp only [step]
    unfold clear_canvas
    cases hl : lookupUser s.users sid with
    | none => exact Or.inl rfl
    | some u =>
      by_cases hr : (u.role == Role.admin) = true
      · simp only [hr, if_true]
        exact Or.inl (by first | rfl | trivial)
      · simp only [hr, if_false]
        exact Or.inl (by first | rfl | trivial)
  | toggle_draw sid enabled =>
    simp only [step]
    unfold toggle_draw
    cases hl : lookupUser s.users sid with
    | none => exact Or.inl rfl
    | some u =>
      by_cases hr : (u.role == Role.admin) = true
      · simp only [hr, if_true]
        exact Or.inl (by first | rfl | trivial)
      · simp only [hr, if_false]
        exact Or.inl (by first | rfl | trivial)
  | set_user_draw sid target canDraw =>
    simp only [step]
    unfold set_user_draw
    cases hl : lookupUser s.users sid with
    | none => exact Or.inl rfl
    | some u =>
      by_cases hr : (u.role == Role.admin) = true
      · simp only [hr, if_true]
        cases ht : lookupUser s.users target with
        | none => exact Or.inl (by first | rfl | trivial)
        | some t => exact Or.inl (by first | rfl | trivial)
      · simp only [hr, if_false]
        exact Or.inl (by first | rfl | trivial)
  | kick_user sid target live =>
    simp only [step]
    unfold kick_user
    cases hl : lookupUser s.users sid with
    | none => exact Or.inl rfl
    | some u =>
      by_cases hr : (u.role == Role.admin) = true
      · simp only [hr, if_true]
        cases live with
        | true => exact Or.inl (by first | rfl | trivial)
        | false =>
          simp only [Bool.false_eq_true, if_false]
          cases ht : lookupUser s.users target with
          | none => exact Or.inl (by first | rfl | trivial)
          | some t => exact Or.inl (by first | rfl | trivial)
      · simp only [hr, if_false]
        exact Or.inl (by first | rfl | trivial)
  | stream_status sid active =>
    simp only [step]
    unfold stream_status
    cases hl : lookupUser s.users sid with
    | none => exact Or.inl rfl
    | some u => exact Or.inl rfl
  | disconnect sid =>
    simp only [step]
    unfold disconnect
    cases hl : lookupUser s.users sid with
    | none => exact Or.inl rfl
    | some u =>
      by_cases hr : (u.role == Role.admin) = true
      · simp only [hr, if_true]
        exact Or.inr (Or.inl (by first | rfl | trivial))
      · simp only [hr, if_false]
        exact Or.inl (by first | rfl | trivial)

theorem chatStamps_cons (e : Event) (es : List Event) :
    chatStamps (e :: es) = chatStamps [e] ++ chatStamps es := by
  cases e <;> rfl

theorem chatNodup_run (es : List Event) (s : AppState)
    (h1 : (s.chat.map ChatMessage.id).Nodup)
    (h2 : (chatStamps es).Nodup)
    (h3 : ∀ m ∈ s.chat, ∀ t ∈ chatStamps es, m.id ≠ Nat.repr t) :
    ((run s es).chat.map ChatMessage.id).Nodup := by
  induction es generalizing s with
  | nil => exact h1
  | cons e es ih =>
    rw [chatStamps_cons] at h2 h3
    have h2' : (chatStamps es).Nodup := (List.nodup_append.mp h2).2.1
    have hdisj : ∀ t1 ∈ chatStamps [e], t1 ∉ chatStamps es :=
      fun t1 ht1 => (List.nodup_append.mp h2).2.2 ht1
    rcases chat_shape_step s e with hs | hs | ⟨mid, hs⟩ | ⟨now, hnow, m, hm, hs⟩
    · refine ih (step s e).1 (by rw [hs]; exact h1) h2' ?_
      intro m hmm t ht
      rw [hs] at hmm
      exact h3 m hmm t (List.mem_append_right _ ht)
    · refine ih (step s e).1 (by rw [hs]; simp) h2' ?_
      intro m hmm t ht
      rw [hs] at hmm
      simp at hmm
    · refine ih (step s e).1 ?_ h2' ?_
      · rw [hs]
        exact ((List.filter_sublist _).map ChatMessage.id).nodup h1
      · intro m hmm t ht
        rw [hs] at hmm
        exact h3 m (List.mem_of_mem_filter hmm) t (List.mem_append_right _ ht)
    · refine ih (step s e).1 ?_ h2' ?_
      · rw [hs]
        rw [List.map_append]
        rw [List.nodup_append]
        refine ⟨h1, by simp, ?_⟩
        intro x hx hx'
        simp only [List.map_cons, List.map_nil, List.mem_singleton] at hx'
        simp only [List.mem_map] at hx
        obtain ⟨m', hm', hid⟩ := hx
        exact h3 m' hm' now (List.mem_append_left _ hnow) (by rw [hid, hx']; exact hm)
      · intro m' hmm t ht
        rw [hs] at hmm
        rcases List.mem_append.mp hmm with hmm | hmm
        · exact h3 m' hmm t (List.mem_append_right _ ht)
        · simp only [List.mem_singleton] at hmm
          subst hmm
          rw [hm]
          intro heq
          have : now = t := natRepr_injective heq
          subst this
          exact hdisj now hnow ht

/-! ## The single-owner invariant (C1) -/

theorem AdminInv.unique {s : AppState} (h : AdminInv s) : AdminUnique s := by
  intro p hp q hq hpr hqr
  have h1 := h p hp hpr
  have h2 := h q hq hqr
  rw [h1] at h2
  exact Option.some_injective _ h2

theorem adminInv_users_admin_eq {s s' : AppState} (hu : s'.users = s.users)
    (ha : s'.admin = s.admin) (h : AdminInv s) : AdminInv s' := by
  intro p hp hpr
  rw [hu] at hp
  rw [ha]
  exact h p hp hpr

theorem adminInv_erase {s : AppState} (h : AdminInv s) (i : String) :
    AdminInv { s with users := eraseUser s.users i } := by
  intro p hp hpr
  exact h p (mem_eraseUser hp) hpr

theorem adminInv_set_role_preserving {s : AppState} {sid : String}
    {u u' : User} (h : AdminInv s) (hl : lookupUser s.users sid = some u)
    (hr : u'.role = u.role) :
    AdminInv { s with users := setUser s.users sid u' } := by
  intro p hp hpr
  rcases mem_setUser hp with h' | h'
  · subst h'
    exact h (sid, u) (lookupUser_mem hl) (hr ▸ hpr)
  · exact h p h' hpr

theorem adminInv_reset {s : AppState} :
    AdminInv { s with admin := none, users := [], chat := [], drawingEnabled := true } := by
  intro p hp
  simp at hp

theorem adminInv_join_room {s : AppState} (h : AdminInv s)
    (sid name code : String) : AdminInv (join_room s sid name code).1 := by
  unfold join_room
  by_cases hc : (code == s.adminCode && s.admin.isNone) = true
  · simp only [hc, if_true]
    intro p hp hpr
    rcases mem_setUser hp with h' | h'
    · subst h'
      rfl
    · have := h p h' hpr
      have hnone : s.admin = none := by
        have := (Bool.and_eq_true _ _).mp hc
        exact Option.isNone_iff_eq_none.mp this.2
      rw [hnone] at this
      exact absurd this (by simp)
  · simp only [hc, if_false]
    intro p hp hpr
    rcases mem_setUser hp with h' | h'
    · subst h'
      simp at hpr
    · exact h p h' hpr

theorem adminInv_set_admin {s : AppState} (h : AdminInv s) (sid code : String) :
    AdminInv (set_admin s sid code).1 := by
  unfold set_admin
  by_cases hc : (code == s.adminCode && s.admin.isNone) = true
  · simp only [hc, if_true]
    cases hl : lookupUser s.users sid with
    | none =>
      intro p hp hpr
      have := h p hp hpr
      have hnone : s.admin = none := by
        have := (Bool.and_eq_true _ _).mp hc
        exact Option.isNone_iff_eq_none.mp this.2
      rw [hnone] at this
      exact absurd this (by simp)
    | some u =>
      intro p hp hpr
      rcases mem_setUser hp with h' | h'
      · subst h'
        rfl
      · have := h p h' hpr
        have hnone : s.admin = none := by
          have := (Bool.and_eq_true _ _).mp hc
          exact Option.isNone_iff_eq_none.mp this.2
        rw [hnone] at this
        exact absurd this (by simp)
  · simp only [hc, if_false]
    exact h

theorem adminInv_peer_ready {s : AppState} (h : AdminInv s)
    (sid pid : String) : AdminInv (peer_ready s sid pid).1 := by
  unfold peer_ready
  cases hl : lookupUser s.users sid with
  | none => exact h
  | some u =>
    by_cases hp : (u.peerId == some pid) = true
    · simp only [hp, if_true]
      exact h
    · simp only [hp, if_false]
      exact adminInv_set_role_preserving h hl rfl

theorem adminInv_peer_left {s : AppState} (h : AdminInv s)
    (sid pid : String) : AdminInv (peer_left s sid pid).1 := by
  unfold peer_left
  cases hl : lookupUser s.users sid with
  | none => exact h
  | some u =>
    by_cases hp : (u.peerId == some pid) = true
    · simp only [hp, if_true]
      exact adminInv_set_role_preserving h hl rfl
    · simp only [hp, if_false]
      exact h

theorem adminInv_peer_joined {s : AppState} (h : AdminInv s)
    (sid pid un ur : String) : AdminInv (peer_joined s sid pid un ur).1 := by
  unfold peer_joined
  cases hl : lookupUser s.users sid with
  | none => exact h
  | some u => exact adminInv_set_role_preserving h hl rfl

theorem adminInv_disconnect {s : AppState} (h : AdminInv s) (sid : String) :
    AdminInv (disconnect s sid).1 := by
  unfold disconnect
  cases hl : lookupUser s.users sid with
  | none => exact h
  | some u =>
    by_cases hr : (u.role == Role.admin) = true
    · simp only [hr, if_true]
      exact adminInv_reset
    · simp only [hr, if_false]
      exact adminInv_erase h sid

theorem adminInv_leaveBody {s : AppState} (h : AdminInv s) (sid : String) :
    AdminInv (leaveBody s sid).1 := by
  unfold leaveBody
  cases hl : lookupUser s.users sid with
  | none => exact h
  | some u =>
    by_cases hr : (u.role == Role.admin) = true
    · simp only [hr, if_true]
      exact adminInv_reset
    · simp only [hr, if_false]
      exact adminInv_erase h sid

theorem adminInv_leave_session {s : AppState} (h : AdminInv s) (sid : String) :
    AdminInv (leave_session s sid).1 :=
  adminInv_disconnect (adminInv_leaveBody h sid) sid

theorem adminInv_chat_message {s : AppState} (h : AdminInv s)
    (sid text : String) (now : Nat) (iso : String) :
    AdminInv (chat_message s sid text now iso).1 := by
  unfold chat_message
  cases hl : lookupUser s.users sid with
  | none => exact h
  | some u => exact adminInv_users_admin_eq rfl rfl h

theorem adminInv_delete_message {s : AppState} (h : AdminInv s)
    (sid mid : String) : AdminInv (delete_message s sid mid).1 := by
  unfold delete_message
  cases hl : lookupUser s.users sid with
  | none => exact h
  | some u =>
    by_cases hr : (u.role == Role.admin) = true
    · simp only [hr, if_true]
      exact adminInv_users_admin_eq rfl rfl h
    · simp only [hr, if_false]
      exact h

theorem adminInv_draw_data {s : AppState} (h : AdminInv s)
    (sid payload : String) : AdminInv (draw_data s sid payload).1 := by
  unfold draw_data
  cases hl : lookupUser s.users sid with
  | none => exact h
  | some u =>
    by_cases hr : (u.role == Role.admin || (s.drawingEnabled && u.canDraw)) = true
    · simp only [hr, if_true]
      exact h
    · simp only [hr, if_false]
      exact h

theorem adminInv_clear_canvas {s : AppState} (h : AdminInv s) (sid : String) :
    AdminInv (clear_canvas s sid).1 := by
  unfold clear_canvas
  cases hl : lookupUser s.users sid with
  | none => exact h
  | some u =>
    by_cases hr : (u.role == Role.admin) = true
    · simp only [hr, if_true]
      exact h
    · simp only [hr, if_false]
      exact h

theorem adminInv_toggle_draw {s : AppState} (h : AdminInv s) (sid : String)
    (enabled : Bool) : AdminInv (toggle_draw s sid enabled).1 := by
  unfold toggle_draw
  cases hl : lookupUser s.users sid with
  | none => exact h
  | some u =>
    by_cases hr : (u.role == Role.admin) = true
    · simp only [hr, if_true]
      exact adminInv_users_admin_eq rfl rfl h
    · simp only [hr, if_false]
      exact h

theorem adminInv_set_user_draw {s : AppState} (h : AdminInv s)
    (sid target : String) (canDraw : Bool) :
    AdminInv (set_user_draw s sid target canDraw).1 := by
  unfold set_user_draw
  cases hl : lookupUser s.users sid with
  | none => exact h
  | some u =>
    by_cases hr : (u.role == Role.admin) = true
    · simp only [hr, if_true]
      cases ht : lookupUser s.users target with
      | none => exact h
      | some t => exact adminInv_set_role_preserving h ht rfl
    · simp only [hr, if_false]
      exact h

theorem adminInv_kick_user {s : AppState} (h : AdminInv s)
    (sid target : String) (live : Bool) :
    AdminInv (kick_user s sid target live).1 := by
  unfold kick_user
  cases hl : lookupUser s.users sid with
  | none => exact h
  | some u =>
    by_cases hr : (u.role == Role.admin) = true
    · simp only [hr, if_true]
      cases live with
      | true => exact h
      | false =>
        simp only [Bool.false_eq_true, if_false]
        cases ht : lookupUser s.users target with
        | none => exact h
        | some t => exact adminInv_erase h target
    · simp only [hr, if_false]
      exact h

theorem adminInv_stream_status {s : AppState} (h : AdminInv s) (sid : String)
    (active : Bool) : AdminInv (stream_status s sid active).1 := by
  unfold stream_status
  cases hl : lookupUser s.users sid with
  | none => exact h
  | some u => exact adminInv_set_role_preserving h hl rfl

theorem adminInv_step {s : AppState} (h : AdminInv s) (e : Event) :
    AdminInv (step s e).1 := by
  cases e with
  | join_room sid name code => exact adminInv_join_room h sid name code
  | set_admin sid code => exact adminInv_set_admin h sid code
  | peer_ready sid pid => exact adminInv_peer_ready h sid pid
  | peer_left sid pid => exact adminInv_peer_left h sid pid
  | peer_joined sid pid un ur => exact adminInv_peer_joined h sid pid un ur
  | leave_session sid => exact adminInv_leave_session h sid
  | chat_message sid text now iso => exact adminInv_chat_message h sid text now iso
  | delete_message sid mid => exact adminInv_delete_message h sid mid
  | draw_data sid payload => exact adminInv_draw_data h sid payload
  | clear_canvas sid => exact adminInv_clear_canvas h sid
  | toggle_draw sid enabled => exact adminInv_toggle_draw h sid enabled
  | set_user_draw sid target canDraw => exact adminInv_set_user_draw h sid target canDraw
  | kick_user sid target live => exact adminInv_kick_user h sid target live
  | stream_status sid active => exact adminInv_stream_status h sid active
  | disconnect sid => exact adminInv_disconnect h sid

theorem adminInv_run {s : AppState} (h : AdminInv s) (es : List Event) :
    AdminInv (run s es) := by
  induction es generalizing s with
  | nil => exact h
  | cons e es ih => exact ih (adminInv_step h e)

theorem adminInv_initAppState : AdminInv initAppState := by
  intro p hp
  simp [initAppState] at hp

/-! ## The claims -/

/-- C1: for every sequence of operations, at most one connection in the
registry has role owner at any instant; and a join presenting the correct
claim code while an owner already exists is assigned participant role. -/
theorem claim_C1_single_owner :
    (∀ es : List Event, AdminUnique (run initAppState es)) ∧
    (∀ (s : AppState) (sid name a : String), s.admin = some a →
      lookupUser (join_room s sid name s.adminCode).1.users sid =
        some { name := name, role := Role.student, streamActive := false,
               canDraw := true, inVideoCall := false, peerId := none }) := by
  constructor
  · intro es
    exact (adminInv_run adminInv_initAppState es).unique
  · intro s sid name a ha
    have hc : (s.adminCode == s.adminCode && s.admin.isNone) = false := by
      rw [ha]
      simp
    unfold join_room
    simp only [hc, Bool.false_eq_true, if_false]
    exact lookupUser_setUser_self _ _ _

/-- Witness for C1 at concrete inputs. -/
theorem claim_C1_witness :
    AdminUnique (run initAppState
      [Event.join_room "A" "Ann" "teach123",
       Event.join_room "B" "Bo" "teach123"]) ∧
    lookupUser (join_room roomWithOwner "B" "Bo" roomWithOwner.adminCode).1.users "B" =
      some { name := "Bo", role := Role.student, streamActive := false,
             canDraw := true, inVideoCall := false, peerId := none } :=
  ⟨claim_C1_single_owner.1 _,
   claim_C1_single_owner.2 roomWithOwner "B" "Bo" "A" rfl⟩

/-- C2: when an owner-role connection terminates, by disconnect or by
explicit leave, a `session_ended` broadcast reaches every remaining
connection and the room state is fully reset: roster empty, chat log empty,
`drawingEnabled` true, admin unset. -/
theorem claim_C2_owner_termination_resets :
    ∀ (s : AppState) (sid : String) (u : User),
      lookupUser s.users sid = some u → u.role = Role.admin →
      ((disconnect s sid).1.users = [] ∧ (disconnect s sid).1.chat = [] ∧
       (disconnect s sid).1.drawingEnabled = true ∧
       (disconnect s sid).1.admin = none ∧
       (∃ e ∈ (disconnect s sid).2,
         e.2 = Msg.session_ended "Admin left the session" ∧
         ∀ r : String, e.1.reaches sid r = true)) ∧
      ((leave_session s sid).1.users = [] ∧ (leave_session s sid).1.chat = [] ∧
       (leave_session s sid).1.drawingEnabled = true ∧
       (leave_session s sid).1.admin = none ∧
       (∃ e ∈ (leave_session s sid).2,
         e.2 = Msg.session_ended "Admin left the session" ∧
         ∀ r : String, e.1.reaches sid r = true)) := by
  intro s sid u hl hr
  have hrb : (u.role == Role.admin) = true := by
    rw [hr]
    rfl
  constructor
  · unfold disconnect
    rw [hl]
    simp only [hrb, if_true]
    refine ⟨by first | rfl | trivial, by first | rfl | trivial,
      by first | rfl | trivial, by first | rfl | trivial,
      ⟨(Target.toAll, Msg.session_ended "Admin left the session"),
        List.mem_append_right _ (List.mem_singleton_self _), rfl,
        fun r => rfl⟩⟩
  · unfold leave_session leaveBody
    rw [hl]
    simp only [hrb, if_true]
    unfold disconnect
    simp only [lookupUser]
    refine ⟨by first | rfl | trivial, by first | rfl | trivial,
      by first | rfl | trivial, by first | rfl | trivial,
      ⟨(Target.toAll, Msg.session_ended "Admin left the session"),
        by simp, rfl, fun r => rfl⟩⟩

/-- Witness for C2 at a concrete single-owner room. -/
theorem claim_C2_witness :
    ((disconnect roomWithOwner "A").1.users = [] ∧
     (disconnect roomWithOwner "A").1.chat = [] ∧
     (disconnect roomWithOwner "A").1.drawingEnabled = true ∧
     (disconnect roomWithOwner "A").1.admin = none ∧
     (∃ e ∈ (disconnect roomWithOwner "A").2,
       e.2 = Msg.session_ended "Admin left the session" ∧
       ∀ r : String, e.1.reaches "A" r = true)) ∧
    ((leave_session roomWithOwner "A").1.users = [] ∧
     (leave_session roomWithOwner "A").1.chat = [] ∧
     (leave_session roomWithOwner "A").1.drawingEnabled = true ∧
     (leave_session roomWithOwner "A").1.admin = none ∧
     (∃ e ∈ (leave_session roomWithOwner "A").2,
       e.2 = Msg.session_ended "Admin left the session" ∧
       ∀ r : String, e.1.reaches "A" r = true)) :=
  claim_C2_owner_termination_resets roomWithOwner "A" annAdmin rfl rfl

/-- C3: a joined connection's `draw_data` is forwarded, to the others only,
exactly when the sender is the owner or global drawing is enabled and the
sender's `canDraw` is set; otherwise it is a silent no-op.  In either case
the room state is unchanged. -/
theorem claim_C3_draw_authorization :
    ∀ (s : AppState) (sid payload : String) (u : User),
      lookupUser s.users sid = some u →
      (draw_data s sid payload).1 = s ∧
      ((u.role = Role.admin ∨ (s.drawingEnabled = true ∧ u.canDraw = true)) →
        (draw_data s sid payload).2 =
          [(Target.toOthers sid, Msg.draw_data payload sid)]) ∧
      (u.role ≠ Role.admin → (s.drawingEnabled = false ∨ u.canDraw = false) →
        (draw_data s sid payload).2 = []) := by
  intro s sid payload u hl
  unfold draw_data
  rw [hl]
  by_cases hb : (u.role == Role.admin || (s.drawingEnabled && u.canDraw)) = true
  · simp only [hb, if_true]
    refine ⟨by first | rfl | trivial, fun _ => by first | rfl | trivial,
      fun hne hflag => ?_⟩
    rcases (Bool.or_eq_true _ _).mp hb with h' | h'
    · exact absurd (by simpa using h') hne
    · obtain ⟨h1, h2⟩ := (Bool.and_eq_true _ _).mp h'
      rcases hflag with h3 | h3
      · rw [h1] at h3
        exact absurd h3 (by simp)
      · rw [h2] at h3
        exact absurd h3 (by simp)
  · simp only [hb, Bool.not_eq_true, if_false]
    refine ⟨by first | rfl | trivial, fun hauth => ?_,
      fun _ _ => by first | rfl | trivial⟩
    exfalso
    apply hb
    rcases hauth with h' | ⟨h1, h2⟩
    · simp [h']
    · simp [h1, h2]

/-- Witness for C3: the owner is forwarded, a revoked participant is not. -/
theorem claim_C3_witness :
    ((draw_data roomOwnerNoDraw "A" "stroke").1 = roomOwnerNoDraw ∧
     (draw_data roomOwnerNoDraw "A" "stroke").2 =
       [(Target.toOthers "A", Msg.draw_data "stroke" "A")]) ∧
    ((draw_data roomOwnerNoDraw "B" "stroke").1 = roomOwnerNoDraw ∧
     (draw_data roomOwnerNoDraw "B" "stroke").2 = []) :=
  ⟨⟨(claim_C3_draw_authorization roomOwnerNoDraw "A" "stroke" annAdmin rfl).1,
    (claim_C3_draw_authorization roomOwnerNoDraw "A" "stroke" annAdmin rfl).2.1
      (Or.inl rfl)⟩,
   ⟨(claim_C3_draw_authorization roomOwnerNoDraw "B" "stroke" boNoDraw rfl).1,
    (claim_C3_draw_authorization roomOwnerNoDraw "B" "stroke" boNoDraw rfl).2.2
      (by decide) (Or.inr rfl)⟩⟩

/-- C4: every owner-only operation invoked by a non-owner connection leaves
the room state unchanged and emits nothing. -/
theorem claim_C4_owner_only_noop :
    ∀ (s : AppState) (sid : String) (u : User),
      lookupUser s.users sid = some u → u.role ≠ Role.admin →
      (∀ mid, delete_message s sid mid = (s, [])) ∧
      (clear_canvas s sid = (s, [])) ∧
      (∀ enabled, toggle_draw s sid enabled = (s, [])) ∧
      (∀ target b, set_user_draw s sid target b = (s, [])) ∧
      (∀ target live, kick_user s sid target live = (s, [])) := by
  intro s sid u hl hne
  have hrb : (u.role == Role.admin) = false := by
    cases hu : u.role
    · exact absurd hu hne
    · rfl
  refine ⟨?_, ?_, ?_, ?_, ?_⟩
  · intro mid
    unfold delete_message
    rw [hl]
    simp [hrb]
  · unfold clear_canvas
    rw [hl]
    simp [hrb]
  · intro enabled
    unfold toggle_draw
    rw [hl]
    simp [hrb]
  · intro target b
    unfold set_user_draw
    rw [hl]
    simp [hrb]
  · intro target live
    unfold kick_user
    rw [hl]
    simp [hrb]

/-- Witness for C4: the student of `roomOwnerPeer` can mutate nothing. -/
theorem claim_C4_witness :
    delete_message roomOwnerPeer "B" "1" = (roomOwnerPeer, []) ∧
    clear_canvas roomOwnerPeer "B" = (roomOwnerPeer, []) ∧
    toggle_draw roomOwnerPeer "B" false = (roomOwnerPeer, []) ∧
    set_user_draw roomOwnerPeer "B" "A" false = (roomOwnerPeer, []) ∧
    kick_user roomOwnerPeer "B" "A" true = (roomOwnerPeer, []) :=
  ⟨(claim_C4_owner_only_noop roomOwnerPeer "B" boPeer rfl (by decide)).1 "1",
   (claim_C4_owner_only_noop roomOwnerPeer "B" boPeer rfl (by decide)).2.1,
   (claim_C4_owner_only_noop roomOwnerPeer "B" boPeer rfl (by decide)).2.2.1 false,
   (claim_C4_owner_only_noop roomOwnerPeer "B" boPeer rfl (by decide)).2.2.2.1 "A" false,
   (claim_C4_owner_only_noop roomOwnerPeer "B" boPeer rfl (by decide)).2.2.2.2 "A" true⟩

/-- C5 counterexample: two `chat_message` events whose `Date.now()` values
coincide (same millisecond) produce two chat-log entries with the same id,
so chat-log ids are not unique for every sequence of sends. -/
theorem claim_C5_counterexample :
    ¬ (((run initAppState
        [Event.join_room "A" "Ann" "x",
         Event.chat_message "A" "hi" 5 "t1",
         Event.chat_message "A" "yo" 5 "t2"]).chat.map ChatMessage.id).Nodup) := by
  decide

/-- C5 (amended): each appended chat message's id is the decimal string of
its `Date.now()` value, so ids are pairwise distinct provided no two sends
share a timestamp; and each send appends at the end of the log, preserving
insertion order. -/
theorem claim_C5_chat_ids :
    (∀ es : List Event, (chatStamps es).Nodup →
      ((run initAppState es).chat.map ChatMessage.id).Nodup) ∧
    (∀ (s : AppState) (sid text : String) (now : Nat) (iso : String) (u : User),
      lookupUser s.users sid = some u →
      (chat_message s sid text now iso).1.chat =
        s.chat ++ [{ id := Nat.repr now, userId := sid, username := u.name,
                     message := text, timestamp := iso, role := u.role }]) := by
  constructor
  · intro es hN
    refine chatNodup_run es initAppState (by simp [initAppState]) hN ?_
    intro m hm
    simp [initAppState] at hm
  · intro s sid text now iso u hl
    unfold chat_message
    rw [hl]

/-- Witness for C5 at concrete inputs with distinct timestamps. -/
theorem claim_C5_witness :
    ((run initAppState
       [Event.join_room "A" "Ann" "x",
        Event.chat_message "A" "hi" 5 "t1",
        Event.chat_message "A" "yo" 6 "t2"]).chat.map ChatMessage.id).Nodup ∧
    (chat_message roomWithOwner "A" "hello" 7 "t").1.chat =
      roomWithOwner.chat ++
        [{ id := Nat.repr 7, userId := "A", username := annAdmin.name,
           message := "hello", timestamp := "t", role := annAdmin.role }] :=
  ⟨claim_C5_chat_ids.1 _ (by decide),
   claim_C5_chat_ids.2 roomWithOwner "A" "hello" 7 "t" annAdmin rfl⟩

/-- C6 counterexample: an owner-invoked `set_user_draw` whose target has
vanished emits no broadcast at all and changes nothing — contrary to the
claim that the roster change is broadcast as if the target had terminated
normally. -/
theorem claim_C6_counterexample :
    (set_user_draw roomWithOwner "A" "B" false).2 = [] ∧
    (set_user_draw roomWithOwner "A" "B" false).1 = roomWithOwner :=
  ⟨rfl, rfl⟩

/-- C6 (amended): an owner-invoked `kick_user` whose target socket is gone
falls back to registry cleanup plus a `user_left` broadcast when the
registry entry still exists, and does nothing when the entry is also gone;
an owner-invoked `set_user_draw` on a vanished target is a silent no-op. -/
theorem claim_C6_kick_fallback :
    ∀ (s : AppState) (sid : String) (u : User) (target : String),
      lookupUser s.users sid = some u → u.role = Role.admin →
      ((∀ t, lookupUser s.users target = some t →
          kick_user s sid target false =
            ({ s with users := eraseUser s.users target },
             [(Target.toAll, Msg.user_left target)])) ∧
       (lookupUser s.users target = none →
          kick_user s sid target false = (s, [])) ∧
       (lookupUser s.users target = none →
          ∀ b, set_user_draw s sid target b = (s, []))) := by
  intro s sid u target hl hr
  have hrb : (u.role == Role.admin) = true := by
    rw [hr]
    rfl
  refine ⟨?_, ?_, ?_⟩
  · intro t ht
    unfold kick_user
    rw [hl, ht]
    simp [hrb]
  · intro ht
    unfold kick_user
    rw [hl, ht]
    simp [hrb]
  · intro ht b
    unfold set_user_draw
    rw [hl, ht]
    simp [hrb]

/-- Witness for C6 at concrete rooms. -/
theorem claim_C6_witness :
    kick_user roomOwnerPeer "A" "B" false =
      ({ roomOwnerPeer with users := eraseUser roomOwnerPeer.users "B" },
       [(Target.toAll, Msg.user_left "B")]) ∧
    kick_user roomWithOwner "A" "C" false = (roomWithOwner, []) ∧
    set_user_draw roomWithOwner "A" "C" true = (roomWithOwner, []) :=
  ⟨(claim_C6_kick_fallback roomOwnerPeer "A" annAdmin "B" rfl rfl).1 boPeer rfl,
   (claim_C6_kick_fallback roomWithOwner "A" annAdmin "C" rfl rfl).2.1 rfl,
   (claim_C6_kick_fallback roomWithOwner "A" annAdmin "C" rfl rfl).2.2 rfl true⟩

/-- C7: `peer_ready` is idempotent — re-presenting the currently registered
handle changes no state and emits nothing. -/
theorem claim_C7_peer_ready_idempotent :
    ∀ (s : AppState) (sid pid : String) (u : User),
      lookupUser s.users sid = some u → u.peerId = some pid →
      peer_ready s sid pid = (s, []) := by
  intro s sid pid u hl hp
  unfold peer_ready
  rw [hl]
  simp [hp]

/-- Witness for C7: the registered peer of `roomOwnerPeer`. -/
theorem claim_C7_witness : peer_ready roomOwnerPeer "B" "h" = (roomOwnerPeer, []) :=
  claim_C7_peer_ready_idempotent roomOwnerPeer "B" "h" boPeer rfl rfl

/-- C8 counterexample: two distinct connections may register the same peer
handle; `peer_ready` never checks the handle against other connections. -/
theorem claim_C8_counterexample :
    ¬ PeerUnique (run initAppState
      [Event.join_room "A" "Ann" "x", Event.join_room "B" "Bo" "x",
       Event.peer_ready "A" "h", Event.peer_ready "B" "h"]) := by
  unfold PeerUnique
  decide

/-- C8 (amended): handle uniqueness holds only under the extra assumption
that the handles presented across the trace are pairwise distinct; the relay
itself preserves it then, for every sequence of operations. -/
theorem claim_C8_handle_unique :
    ∀ es : List Event, (presentedHandles es).Nodup →
      PeerUnique (run initAppState es) := by
  intro es hN
  refine peerUnique_run es initAppState ?_ hN ?_
  · intro p hp
    simp [initAppState] at hp
  · intro h hr
    obtain ⟨p, hp, _⟩ := hr
    simp [initAppState] at hp

/-- Witness for C8 on a concrete trace with distinct handles. -/
theorem claim_C8_witness :
    PeerUnique (run initAppState
      [Event.join_room "A" "Ann" "x", Event.join_room "B" "Bo" "x",
       Event.peer_ready "A" "h1", Event.peer_ready "B" "h2"]) :=
  claim_C8_handle_unique _ (by decide)

/-- C9 counterexample: a student holding registered handle `"h"` leaves
explicitly; the emitted sequence is only the roster removal — no
`peer_left("h")` broadcast fires at all, let alone first. -/
theorem claim_C9_counterexample :
    leave_session roomOwnerPeer "B" =
      ({ roomOwnerPeer with users := [("A", annAdmin)] },
       [(Target.toOthers "B", Msg.user_left "B")]) := by
  rfl

/-- C9 (amended): on a transport disconnect (which kicks also go through)
the `peer_left` broadcast precedes the roster-removal or session-ended
broadcast; but on an explicit leave no `peer_left` is emitted at all,
because `leave_session` deletes the registry entry before its closing
`socket.disconnect()` runs the disconnect cleanup. -/
theorem claim_C9_peer_left_first :
    ∀ (s : AppState) (sid pid : String) (u : User),
      lookupUser s.users sid = some u → u.peerId = some pid →
      ((disconnect s sid).2 =
        (Target.toOthers sid, Msg.peer_left pid) ::
          (if u.role == Role.admin then
            [(Target.toAll, Msg.session_ended "Admin left the session")]
           else [(Target.toOthers sid, Msg.user_left sid)])) ∧
      (KeysNodup s →
        ∀ e ∈ (leave_session s sid).2, e.2.isPeerLeft = false) := by
  intro s sid pid u hl hp
  constructor
  · unfold disconnect
    rw [hl]
    by_cases hr : (u.role == Role.admin) = true
    · simp [hr, hp]
    · simp only [Bool.not_eq_true] at hr
      simp [hr, hp]
  · intro hK
    unfold leave_session leaveBody
    rw [hl]
    by_cases hr : (u.role == Role.admin) = true
    · simp only [hr, if_true]
      unfold disconnect
      simp only [lookupUser]
      intro e he
      simp at he
      rw [he]
      rfl
    · have hrb : (u.role == Role.admin) = false := by
        revert hr
        cases u.role == Role.admin <;> simp
      simp only [hrb, Bool.false_eq_true, if_false]
      unfold disconnect
      simp only [lookupUser_eraseUser_self hK]
      intro e he
      simp at he
      rw [he]
      rfl

/-- Witness for C9 at the concrete room with a registered peer. -/
theorem claim_C9_witness :
    ((disconnect roomOwnerPeer "B").2 =
      (Target.toOthers "B", Msg.peer_left "h") ::
        (if boPeer.role == Role.admin then
          [(Target.toAll, Msg.session_ended "Admin left the session")]
         else [(Target.toOthers "B", Msg.user_left "B")])) ∧
    (∀ e ∈ (leave_session roomOwnerPeer "B").2, e.2.isPeerLeft = false) :=
  ⟨(claim_C9_peer_left_first roomOwnerPeer "B" "h" boPeer rfl rfl).1,
   (claim_C9_peer_left_first roomOwnerPeer "B" "h" boPeer rfl rfl).2
     (by unfold KeysNodup; decide)⟩

/-- C10: `peer_ready` with a different handle silently replaces the
registration — the connection's handle becomes the new one and only
`peer_joined` with the new handle is announced; no `peer_left` for the old
handle is ever emitted. -/
theorem claim_C10_silent_replacement :
    ∀ (s : AppState) (sid h1 h2 : String) (u : User),
      lookupUser s.users sid = some u → u.peerId = some h1 → h1 ≠ h2 →
      lookupUser (peer_ready s sid h2).1.users sid =
        some { u with inVideoCall := true, peerId := some h2 } ∧
      (∃ peers, (peer_ready s sid h2).2 =
        [(Target.toSelf sid, Msg.peers_in_room peers),
         (Target.toOthers sid, Msg.peer_joined h2 u.name u.role.toStr)]) ∧
      (∀ e ∈ (peer_ready s sid h2).2, e.2.isPeerLeft = false) := by
  intro s sid h1 h2 u hl hp hne
  have hb : (u.peerId == some h2) = false := by
    rw [hp]
    simp
    exact hne
  unfold peer_ready
  rw [hl]
  simp only [hb, Bool.false_eq_true, if_false]
  refine ⟨lookupUser_setUser_self _ _ _, ⟨_, rfl⟩, ?_⟩
  intro e he
  simp at he
  rcases he with he | he <;> rw [he] <;> rfl

/-- Witness for C10: replacing handle `"h"` by `"g"`. -/
theorem claim_C10_witness :
    lookupUser (peer_ready roomOwnerPeer "B" "g").1.users "B" =
      some { boPeer with inVideoCall := true, peerId := some "g" } ∧
    (∃ peers, (peer_ready roomOwnerPeer "B" "g").2 =
      [(Target.toSelf "B", Msg.peers_in_room peers),
       (Target.toOthers "B", Msg.peer_joined "g" boPeer.name boPeer.role.toStr)]) ∧
    (∀ e ∈ (peer_ready roomOwnerPeer "B" "g").2, e.2.isPeerLeft = false) :=
  claim_C10_silent_replacement roomOwnerPeer "B" "h" "g" boPeer rfl rfl
    (by decide)

end EduCanvas
